import Mathlib

/-!
A verification development for the `GroupGO/Trimming` repository: a shallow
embedding of the merged paired-end FASTQ splitting pipeline implemented in
`Splitter.py` (record extraction, midpoint splitting, output-path derivation,
the overwrite guard of `split_merged_data_set`) and of the command-line
argument intake implemented twice, in `Splitter.py` and in
`CommandLineParser.py`.

Python strings are modelled as Lean `String`s; Python string truthiness is
non-emptiness; `line.strip()` is `pyStrip`; `line[0]`, which raises
`IndexError` on an empty string, is modelled by matching on `headChar?`, with
`none` (the `IndexError` case) aborting the whole extraction; slicing
`s[a:b]` on non-negative indices is `pySlice`.  The generator
`extract_record` is modelled as a fold over the list of input lines that
returns the list of yielded records, `none` signalling an uncaught
`IndexError`.  File contents are modelled as total maps `String → Option
String` from path to content, and each `output.write(...)` call appends one
chunk to the corresponding output stream list.
-/

/-- Characters removed by Python `str.strip()` (ASCII whitespace). -/
def isPySpace (c : Char) : Bool :=
  c = ' ' || c = '\t' || c = '\n' || c = '\r' || c = '\x0b' || c = '\x0c'

/-- List-level model of Python `str.strip()`: drop whitespace from both ends. -/
def stripList (l : List Char) : List Char :=
  ((l.dropWhile isPySpace).reverse.dropWhile isPySpace).reverse

/-- Model of Python `line.strip()` from `Splitter.py` line 70. -/
def pyStrip (s : String) : String :=
  (stripList s.toList).asString

/-- The first character of a string, when there is one; models Python `line[0]`,
whose out-of-range case (`none`) raises `IndexError`. -/
def headChar? (s : String) : Option Char :=
  s.toList.head?

/-- Model of Python slicing `s[a:b]` for non-negative bounds (with Python's
clamping behaviour). -/
def pySlice (s : String) (a b : Nat) : String :=
  ((s.toList.drop a).take (b - a)).asString

/-- A sequence of newline-terminated lines rendered as one string: the
formalisation of writing the given lines, "each as its own line". -/
def mkLines (ls : List String) : String :=
  String.join (ls.map (fun l => l ++ "\n"))

/-- The accumulator slots of `extract_record` (`Splitter.py` line 68):
`header, sequence, quality = '', '', ''`. -/
structure ExtState where
  header : String
  sequence : String
  quality : String
deriving DecidableEq, Repr

/-- A yielded FASTQ record: the triple `(header, sequence, quality)`. -/
structure Record where
  header : String
  sequence : String
  quality : String
deriving DecidableEq, Repr

/-- The initial (and post-yield) accumulator state: all three slots empty. -/
def initState : ExtState :=
  ⟨"", "", ""⟩

/-- The `if/elif/elif` chain of `extract_record` (`Splitter.py` lines 71-77)
applied to a stripped non-empty line whose first character is `c`: an
`@`-line is taken as the header; otherwise, with a header and no sequence
yet, the line is the sequence; otherwise, with header and sequence but no
quality yet, the line is the quality unless it starts with `+` (in which case
it is skipped); otherwise the line is ignored. -/
def classifyLine (st : ExtState) (line : String) (c : Char) : ExtState :=
  if c = '@' then { st with header := line }
  else if st.header ≠ "" ∧ st.sequence = "" then { st with sequence := line }
  else if st.header ≠ "" ∧ st.sequence ≠ "" ∧ st.quality = "" then
    (if c ≠ '+' then { st with quality := line } else st)
  else st

/-- The completion check of `extract_record` (`Splitter.py` lines 79-81): when
all three slots are populated, yield the record and reset the slots. -/
def yieldCheck (st' : ExtState) : ExtState × Option Record :=
  if st'.header ≠ "" ∧ st'.sequence ≠ "" ∧ st'.quality ≠ "" then
    (initState, some ⟨st'.header, st'.sequence, st'.quality⟩)
  else
    (st', none)

/-- One loop iteration of `extract_record` (`Splitter.py` lines 69-81) on a
single raw input line: strip the line, classify it, then yield and reset when
all three slots are populated.  Returns `none` when `line[0]` raises
`IndexError` (the stripped line is empty); otherwise
`some (new state, yielded record?)`. -/
def processLine (st : ExtState) (rawLine : String) : Option (ExtState × Option Record) :=
  let line := pyStrip rawLine
  match headChar? line with
  | none => none
  | some c => some (yieldCheck (classifyLine st line c))

/-- Run the `extract_record` loop from state `st` over the remaining input
lines, collecting the yielded records in order; `none` models an uncaught
`IndexError` aborting the generator. -/
def extractGo (st : ExtState) : List String → Option (List Record)
  | [] => some []
  | l :: ls =>
    match processLine st l with
    | none => none
    | some (st', none) => extractGo st' ls
    | some (st', some r) => (extractGo st' ls).map (fun rs => r :: rs)

/-- Model of `extract_record` (`Splitter.py` lines 61-81): the list of records
yielded over the whole input line stream. -/
def extract_record (lines : List String) : Option (List Record) :=
  extractGo initState lines

/-- Model of `split_record` (`Splitter.py` lines 83-96): the two strings
written by the two `output.write('%s\n%s\n+\n%s\n' % ...)` calls, index 0 for
the forward stream and index 1 for the reverse stream. -/
def split_record (header sequence quality : String) : List String :=
  let seq_len := sequence.length
  [(0, seq_len / 2), (seq_len / 2, seq_len)].map
    (fun se =>
      header ++ "\n" ++ pySlice sequence se.1 se.2 ++ "\n" ++ "+" ++ "\n"
        ++ pySlice quality se.1 se.2 ++ "\n")

/-- A record triple that forms a canonical well-formed four-line FASTQ block:
each component equal to its own stripped form, the header starting with `@`,
the sequence non-empty and not starting with `@`, and the quality non-empty
and starting with neither `@` nor `+`. -/
def wellFormedRecord (r : Record) : Bool :=
  pyStrip r.header == r.header && pyStrip r.sequence == r.sequence
    && pyStrip r.quality == r.quality
    && headChar? r.header == some '@'
    && (match headChar? r.sequence with
        | some c => c != '@'
        | none => false)
    && (match headChar? r.quality with
        | some c => c != '@' && c != '+'
        | none => false)

/-- The four input lines of a well-formed record block: header, sequence,
separator `+`, quality. -/
def blockOf (r : Record) : List String :=
  [r.header, r.sequence, "+", r.quality]

/-- Trailing input that populates fewer than three accumulator slots before
end-of-input: nothing, a lone header line, or a header line followed by a
sequence line. -/
def incompleteTrailing (trailing : List String) : Bool :=
  match trailing with
  | [] => true
  | [l1] => headChar? (pyStrip l1) == some '@'
  | [l1, l2] =>
    headChar? (pyStrip l1) == some '@'
      && (match headChar? (pyStrip l2) with
          | some c => c != '@'
          | none => false)
  | _ => false

/-- The driving loop of `split_merged_data_set` (`Splitter.py` lines 143-144):
for each extracted record, one chunk is written to the forward stream and one
to the reverse stream; the two chunk lists are returned in stream order, and
`none` models the loop aborting on an `IndexError` inside the generator. -/
def runPipeline (lines : List String) : Option (List String × List String) :=
  (extract_record lines).map (fun recs =>
    (recs.map (fun r => (split_record r.header r.sequence r.quality).getD 0 ""),
     recs.map (fun r => (split_record r.header r.sequence r.quality).getD 1 "")))

/-- Model of `re.split('\x5c.|/', input_path)` from `generate_output_paths`:
split at every `.` or `/` character. -/
def splitDotSlash (s : String) : List String :=
  s.split (fun c => c = '.' || c = '/')

/-- Model of the Python list slice `split_name[-2:-1]` for a non-empty list
(natural-number subtraction performs Python's clamping). -/
def sliceNeg2Neg1 (l : List String) : List String :=
  (l.drop (l.length - 2)).take ((l.length - 1) - (l.length - 2))

/-- Model of `generate_output_paths` (`Splitter.py` lines 106-119). -/
def generate_output_paths (input_path folder_path : String) : List String :=
  let split_name := splitDotSlash input_path
  let extension := split_name.getLastD ""
  ["forward", "reverse"].map (fun name =>
    folder_path ++ "/" ++ String.intercalate "." (sliceNeg2Neg1 split_name)
      ++ "_" ++ name ++ "." ++ extension)

/-- Effect on the path-to-content map of opening the two output paths in `'w'`
mode and writing each stream's chunks to its file. -/
def writeFiles (fs : String → Option String) (paths : List String)
    (out : List String × List String) : String → Option String :=
  fun p =>
    if p = paths.getD 1 "" then some (String.join out.2)
    else if p = paths.getD 0 "" then some (String.join out.1)
    else fs p

/-- Model of `split_merged_data_set` (`Splitter.py` lines 122-149) over a
path-to-content map `fs` and the lines of the input file: the updated map and
the status message printed, `none` for an uncaught error.  Directory creation
(`create_empty_folder`) does not affect any file's content and is not
modelled. -/
def split_merged_data_set (fs : String → Option String) (inputLines : List String)
    (input_path output_directory : String) (overwrite : Bool) :
    Option ((String → Option String) × String) :=
  let output_paths := generate_output_paths input_path output_directory
  if !(output_paths.all (fun p => (fs p).isSome)) || overwrite then
    (runPipeline inputLines).map (fun out =>
      (writeFiles fs output_paths out, "Started paired-end read file splitting."))
  else
    some (fs, "Splitting Aborted. Files already present and not overwritten.")

/-- A Python value as used for command-line defaults: the call sites pass
strings and booleans (`['', '', False]`). -/
inductive PyVal where
  | str : String → PyVal
  | bool : Bool → PyVal
deriving DecidableEq, Repr

/-- Python truthiness (`if default_value:`) on such a value. -/
def pyTruthy : PyVal → Bool
  | .str s => s != ""
  | .bool b => b

/-- The Python test `default_value != ''` on such a value (every boolean
differs from the empty string). -/
def pyNeEmptyStr : PyVal → Bool
  | .str s => s != ""
  | .bool _ => true

/-- The loop shared by the two copies of `get_command_line_arguments`: for
each default (at loop index `index`), take `sys.argv[index + off]` when in
range, otherwise keep the default when `useDefault` accepts it, otherwise
`exit(...)` (modelled as `none`). -/
def gclaGo (argv : List String) (useDefault : PyVal → Bool) (off : Nat) :
    Nat → List PyVal → Option (List PyVal)
  | _, [] => some []
  | index, default_value :: rest =>
    match argv[index + off]? with
    | some a =>
      (gclaGo argv useDefault off (index + 1) rest).map (fun vs => PyVal.str a :: vs)
    | none =>
      if useDefault default_value then
        (gclaGo argv useDefault off (index + 1) rest).map (fun vs => default_value :: vs)
      else none

namespace Splitter

/-- Model of `get_command_line_arguments` in `Splitter.py` (lines 26-46):
reads `sys.argv[index + 1]` and falls back to a default exactly when it
satisfies `default_value != ''`. -/
def get_command_line_arguments (argv : List String)
    (default_variable_values : List PyVal) : Option (List PyVal) :=
  gclaGo argv pyNeEmptyStr 1 0 default_variable_values

end Splitter

namespace CommandLineParser

/-- Model of `get_command_line_arguments` in `CommandLineParser.py` (lines
21-41): reads `sys.argv[index]` (the program name occupies index 0) and falls
back to a default exactly when it is truthy (`if default_value:`). -/
def get_command_line_arguments (argv : List String)
    (default_variable_values : List PyVal) : Option (List PyVal) :=
  gclaGo argv pyTruthy 0 0 default_variable_values

end CommandLineParser

lemma mkLines_four (a b c d : String) :
    mkLines [a, b, c, d] = a ++ "\n" ++ b ++ "\n" ++ c ++ "\n" ++ d ++ "\n" := by
  simp [mkLines, String.join, List.foldl, String.append_assoc]

lemma length_asString (l : List Char) : l.asString.length = l.length := rfl

lemma asString_toList (s : String) : s.toList.asString = s := rfl

lemma pySlice_length_left (s : String) (m : Nat) (hm : m ≤ s.length) :
    (pySlice s 0 m).length = m := by
  simp [pySlice, length_asString]
  omega

lemma pySlice_length_right (s : String) (m : Nat) :
    (pySlice s m s.length).length = s.length - m := by
  simp [pySlice, length_asString]

lemma pySlice_split (s : String) (m : Nat) :
    pySlice s 0 m ++ pySlice s m s.length = s := by
  have hdrop : (s.toList.drop m).length = s.length - m := by
    rw [List.length_drop]
    rfl
  have htake : (s.toList.drop m).take (s.length - m) = s.toList.drop m := by
    apply List.take_of_length_le
    omega
  calc pySlice s 0 m ++ pySlice s m s.length
      = (s.toList.take m).asString ++ ((s.toList.drop m).take (s.length - m)).asString := rfl
    _ = (s.toList.take m).asString ++ (s.toList.drop m).asString := by rw [htake]
    _ = (s.toList.take m ++ s.toList.drop m).asString := rfl
    _ = s.toList.asString := by rw [List.take_append_drop]
    _ = s := rfl

lemma headChar?_ne_empty {s : String} {c : Char} (h : headChar? s = some c) : s ≠ "" := by
  intro he
  rw [he] at h
  have h0 : headChar? "" = none := by decide
  rw [h0] at h
  exact Option.noConfusion h

lemma wellFormedRecord_spec {r : Record} (h : wellFormedRecord r = true) :
    pyStrip r.header = r.header ∧ pyStrip r.sequence = r.sequence ∧
    pyStrip r.quality = r.quality ∧ headChar? r.header = some '@' ∧
    (∃ c, headChar? r.sequence = some c ∧ c ≠ '@') ∧
    (∃ c, headChar? r.quality = some c ∧ c ≠ '@' ∧ c ≠ '+') := by
  unfold wellFormedRecord at h
  cases hcs : headChar? r.sequence with
  | none => rw [hcs] at h; simp at h
  | some cs =>
    cases hcq : headChar? r.quality with
    | none => rw [hcq] at h; simp at h
    | some cq =>
      rw [hcs, hcq] at h
      simp only [Bool.and_eq_true, beq_iff_eq, bne_iff_ne, ne_eq] at h
      refine ⟨?_, ?_, ?_, ?_, ⟨cs, rfl, ?_⟩, ⟨cq, rfl, ?_, ?_⟩⟩ <;> tauto

lemma classifyLine_at (st : ExtState) (line : String) :
    classifyLine st line '@' = { st with header := line } := by
  simp [classifyLine]

lemma classifyLine_seq (st : ExtState) (line : String) (c : Char) (hat : c ≠ '@')
    (hh : st.header ≠ "") (hs : st.sequence = "") :
    classifyLine st line c = { st with sequence := line } := by
  simp [classifyLine, hat, hh, hs]

lemma classifyLine_skip (st : ExtState) (line : String)
    (hh : st.header ≠ "") (hs : st.sequence ≠ "") (hq : st.quality = "") :
    classifyLine st line '+' = st := by
  simp [classifyLine, hh, hs, hq]

lemma classifyLine_qual (st : ExtState) (line : String) (c : Char)
    (hat : c ≠ '@') (hplus : c ≠ '+')
    (hh : st.header ≠ "") (hs : st.sequence ≠ "") (hq : st.quality = "") :
    classifyLine st line c = { st with quality := line } := by
  simp [classifyLine, hat, hplus, hh, hs, hq]

lemma yieldCheck_no (st' : ExtState)
    (h : ¬(st'.header ≠ "" ∧ st'.sequence ≠ "" ∧ st'.quality ≠ "")) :
    yieldCheck st' = (st', none) := by
  rw [yieldCheck, if_neg h]

lemma yieldCheck_yes (st' : ExtState) (h1 : st'.header ≠ "") (h2 : st'.sequence ≠ "")
    (h3 : st'.quality ≠ "") :
    yieldCheck st' = (initState, some ⟨st'.header, st'.sequence, st'.quality⟩) := by
  rw [yieldCheck, if_pos ⟨h1, h2, h3⟩]

lemma processLine_some (st : ExtState) (raw : String) (c : Char)
    (hc : headChar? (pyStrip raw) = some c) :
    processLine st raw = some (yieldCheck (classifyLine st (pyStrip raw) c)) := by
  unfold processLine
  simp only [hc]

example : pyStrip "  @h \n" = "@h" := by decide

example : extract_record ["@r1", "ACGTACGT", "+", "IIIIIIII"]
    = some [⟨"@r1", "ACGTACGT", "IIIIIIII"⟩] := by decide

example : split_record "@r1" "ACGTACGT" "IIIIIIII"
    = ["@r1\nACGT\n+\nIIII\n", "@r1\nACGT\n+\nIIII\n"] := by decide

example : extract_record [""] = none := by decide

example : extract_record ["@h", "S", "+", "+", "J"] = some [⟨"@h", "S", "J"⟩] := by decide

example : extract_record ["  @h", "S", "+", "Q"] = some [⟨"@h", "S", "Q"⟩] := by decide

/-- C1: for every Record `(header, sequence, quality)` with sequence of length
`L`, `split_record` writes to the forward stream (index 0) exactly the four
newline-terminated lines `header`, `sequence[0:mid]`, `+`, `quality[0:mid]`,
and to the reverse stream (index 1) exactly `header`, `sequence[mid:L]`, `+`,
`quality[mid:L]`, with `mid = L / 2` under integer floor division; for odd `L`
the forward half has one fewer character than the reverse half. -/
theorem split_record_four_lines (hd s q : String) :
    split_record hd s q =
      [mkLines [hd, pySlice s 0 (s.length / 2), "+", pySlice q 0 (s.length / 2)],
       mkLines [hd, pySlice s (s.length / 2) s.length, "+", pySlice q (s.length / 2) s.length]] ∧
    (s.length % 2 = 1 →
      (pySlice s 0 (s.length / 2)).length + 1
        = (pySlice s (s.length / 2) s.length).length) := by
  constructor
  · simp [split_record, mkLines_four, String.append_assoc]
  · intro hodd
    have h1 : (pySlice s 0 (s.length / 2)).length = s.length / 2 :=
      pySlice_length_left s (s.length / 2) (Nat.div_le_self _ _)
    have h2 : (pySlice s (s.length / 2) s.length).length = s.length - s.length / 2 :=
      pySlice_length_right s (s.length / 2)
    omega

/-- Witness for C1 at the spec's concrete odd-length scenario. -/
theorem split_record_four_lines_witness :
    "ACGTACG".length % 2 = 1 ∧
    (pySlice "ACGTACG" 0 ("ACGTACG".length / 2)).length + 1
      = (pySlice "ACGTACG" ("ACGTACG".length / 2) "ACGTACG".length).length :=
  ⟨by decide, (split_record_four_lines "@read1" "ACGTACG" "IIIIIII").2 (by decide)⟩

/-- C2: for every Record whose quality has the same length as its sequence,
the two sub-records produced by `split_record` reconstruct the original
sequence and quality by concatenation (forward then reverse), the forward
sequence has length `L / 2`, the reverse has length `L - L / 2`, and the two
lengths sum to `L`. -/
theorem split_record_round_trip (hd s q : String) (hq : q.length = s.length) :
    ∃ fs fq rs rq,
      split_record hd s q = [mkLines [hd, fs, "+", fq], mkLines [hd, rs, "+", rq]] ∧
      fs ++ rs = s ∧ fq ++ rq = q ∧
      fs.length = s.length / 2 ∧ rs.length = s.length - s.length / 2 ∧
      fs.length + rs.length = s.length := by
  refine ⟨pySlice s 0 (s.length / 2), pySlice q 0 (s.length / 2),
    pySlice s (s.length / 2) s.length, pySlice q (s.length / 2) s.length,
    (split_record_four_lines hd s q).1, ?_, ?_, ?_, ?_, ?_⟩
  · exact pySlice_split s (s.length / 2)
  · rw [← hq]
    exact pySlice_split q (q.length / 2)
  · exact pySlice_length_left s (s.length / 2) (Nat.div_le_self _ _)
  · exact pySlice_length_right s (s.length / 2)
  · have h1 := pySlice_length_left s (s.length / 2) (Nat.div_le_self _ _)
    have h2 := pySlice_length_right s (s.length / 2)
    omega

/-- Witness for C2 at a concrete record. -/
theorem split_record_round_trip_witness :
    "IIIIIII".length = "ACGTACG".length ∧
    ∃ fs fq rs rq,
      split_record "@read1" "ACGTACG" "IIIIIII"
        = [mkLines ["@read1", fs, "+", fq], mkLines ["@read1", rs, "+", rq]] ∧
      fs ++ rs = "ACGTACG" ∧ fq ++ rq = "IIIIIII" ∧
      fs.length = "ACGTACG".length / 2 ∧
      rs.length = "ACGTACG".length - "ACGTACG".length / 2 ∧
      fs.length + rs.length = "ACGTACG".length :=
  ⟨by decide, split_record_round_trip "@read1" "ACGTACG" "IIIIIII" (by decide)⟩

lemma extractGo_block (r : Record) (hr : wellFormedRecord r = true) (rest : List String) :
    extractGo initState (blockOf r ++ rest)
      = (extractGo initState rest).map (fun rs => r :: rs) := by
  obtain ⟨hh, hs, hq, hhc, ⟨cs, hcs, hcsa⟩, ⟨cq, hcq, hcqa, hcqp⟩⟩ := wellFormedRecord_spec hr
  have hhne : r.header ≠ "" := headChar?_ne_empty hhc
  have hsne : r.sequence ≠ "" := headChar?_ne_empty hcs
  have hqne : r.quality ≠ "" := headChar?_ne_empty hcq
  have p1 : processLine initState r.header = some (⟨r.header, "", ""⟩, none) := by
    rw [processLine_some initState r.header '@' (by rw [hh]; exact hhc), hh,
      classifyLine_at, yieldCheck_no _ (fun hcontra => hcontra.2.1 rfl)]
    rfl
  have p2 : processLine ⟨r.header, "", ""⟩ r.sequence
      = some (⟨r.header, r.sequence, ""⟩, none) := by
    rw [processLine_some ⟨r.header, "", ""⟩ r.sequence cs (by rw [hs]; exact hcs), hs,
      classifyLine_seq _ _ _ hcsa hhne rfl,
      yieldCheck_no _ (fun hcontra => hcontra.2.2 rfl)]
  have p3 : processLine ⟨r.header, r.sequence, ""⟩ "+"
      = some (⟨r.header, r.sequence, ""⟩, none) := by
    rw [processLine_some ⟨r.header, r.sequence, ""⟩ "+" '+' (by decide),
      show pyStrip "+" = "+" from by decide,
      classifyLine_skip _ _ hhne hsne rfl,
      yieldCheck_no _ (fun hcontra => hcontra.2.2 rfl)]
  have p4 : processLine ⟨r.header, r.sequence, ""⟩ r.quality
      = some (initState, some r) := by
    rw [processLine_some ⟨r.header, r.sequence, ""⟩ r.quality cq (by rw [hq]; exact hcq), hq,
      classifyLine_qual _ _ _ hcqa hcqp hhne hsne rfl,
      yieldCheck_yes _ hhne hsne hqne]
  show extractGo initState (r.header :: r.sequence :: "+" :: r.quality :: rest) = _
  simp only [extractGo, p1, p2, p3, p4]

lemma extractGo_blocks (records : List Record) (rest : List String) :
    records.all wellFormedRecord = true →
    extractGo initState ((records.map blockOf).flatten ++ rest)
      = (extractGo initState rest).map (fun rs => records ++ rs) := by
  induction records with
  | nil =>
    intro _
    simp
  | cons r rs ih =>
    intro hwf
    simp only [List.all_cons, Bool.and_eq_true] at hwf
    simp only [List.map_cons, List.flatten_cons, List.append_assoc]
    rw [extractGo_block r hwf.1, ih hwf.2]
    cases extractGo initState rest <;> simp

lemma incompleteTrailing_drop (t : List String) (h : incompleteTrailing t = true) :
    extractGo initState t = some [] := by
  rcases t with _ | ⟨l1, _ | ⟨l2, _ | ⟨l3, t'⟩⟩⟩
  · rfl
  · simp only [incompleteTrailing, beq_iff_eq] at h
    have p1 : processLine initState l1 = some (⟨pyStrip l1, "", ""⟩, none) := by
      rw [processLine_some initState l1 '@' h, classifyLine_at,
        yieldCheck_no _ (fun hcontra => hcontra.2.1 rfl)]
      rfl
    simp only [extractGo, p1]
  · cases hc2 : headChar? (pyStrip l2) with
    | none => rw [incompleteTrailing, hc2] at h; simp at h
    | some c2 =>
      rw [incompleteTrailing, hc2] at h
      simp only [Bool.and_eq_true, beq_iff_eq, bne_iff_ne, ne_eq] at h
      obtain ⟨h1, h2⟩ := h
      have hne1 : pyStrip l1 ≠ "" := headChar?_ne_empty h1
      have p1 : processLine initState l1 = some (⟨pyStrip l1, "", ""⟩, none) := by
        rw [processLine_some initState l1 '@' h1, classifyLine_at,
          yieldCheck_no _ (fun hcontra => hcontra.2.1 rfl)]
        rfl
      have p2 : processLine ⟨pyStrip l1, "", ""⟩ l2
          = some (⟨pyStrip l1, pyStrip l2, ""⟩, none) := by
        rw [processLine_some ⟨pyStrip l1, "", ""⟩ l2 c2 hc2,
          classifyLine_seq _ _ _ h2 hne1 rfl,
          yieldCheck_no _ (fun hcontra => hcontra.2.2 rfl)]
      simp only [extractGo, p1, p2]
  · exact Bool.noConfusion h

/-- C3: for an input consisting of `N` well-formed four-line records followed
by trailing incomplete data (fewer than three populated slots), the extractor
yields exactly those `N` records in input order, and the driving loop of
`split_merged_data_set` writes exactly `N` four-line sub-record chunks to each
of the two output streams; the trailing data is silently dropped. -/
theorem extract_record_count (records : List Record) (trailing : List String)
    (hwf : records.all wellFormedRecord = true)
    (ht : incompleteTrailing trailing = true) :
    extract_record ((records.map blockOf).flatten ++ trailing) = some records ∧
    ∃ fwd rev,
      runPipeline ((records.map blockOf).flatten ++ trailing) = some (fwd, rev) ∧
      fwd.length = records.length ∧ rev.length = records.length ∧
      (∀ chunk ∈ fwd, ∃ a b d, chunk = mkLines [a, b, "+", d]) ∧
      (∀ chunk ∈ rev, ∃ a b d, chunk = mkLines [a, b, "+", d]) := by
  have hex : extract_record ((records.map blockOf).flatten ++ trailing) = some records := by
    unfold extract_record
    rw [extractGo_blocks records trailing hwf, incompleteTrailing_drop trailing ht]
    simp
  refine ⟨hex,
    records.map (fun r => (split_record r.header r.sequence r.quality).getD 0 ""),
    records.map (fun r => (split_record r.header r.sequence r.quality).getD 1 ""),
    ?_, by simp, by simp, ?_, ?_⟩
  · unfold runPipeline
    rw [hex]
    rfl
  · intro chunk hchunk
    simp only [List.mem_map] at hchunk
    obtain ⟨r, _, rfl⟩ := hchunk
    rw [(split_record_four_lines r.header r.sequence r.quality).1]
    exact ⟨r.header, pySlice r.sequence 0 (r.sequence.length / 2),
      pySlice r.quality 0 (r.sequence.length / 2), by simp⟩
  · intro chunk hchunk
    simp only [List.mem_map] at hchunk
    obtain ⟨r, _, rfl⟩ := hchunk
    rw [(split_record_four_lines r.header r.sequence r.quality).1]
    exact ⟨r.header, pySlice r.sequence (r.sequence.length / 2) r.sequence.length,
      pySlice r.quality (r.sequence.length / 2) r.sequence.length, by simp⟩

/-- Witness for C3 at one concrete well-formed record plus a trailing header. -/
theorem extract_record_count_witness :
    extract_record (([Record.mk "@r1" "ACGTACGT" "IIIIIIII"].map blockOf).flatten ++ ["@r2"])
      = some [Record.mk "@r1" "ACGTACGT" "IIIIIIII"] :=
  (extract_record_count [Record.mk "@r1" "ACGTACGT" "IIIIIIII"] ["@r2"]
    (by decide) (by decide)).1

lemma extractGo_cons_err (st : ExtState) (l : String) (ls : List String)
    (hp : processLine st l = none) :
    extractGo st (l :: ls) = none := by
  rw [extractGo, hp]

lemma extractGo_cons_none (st st' : ExtState) (l : String) (ls : List String)
    (hp : processLine st l = some (st', none)) :
    extractGo st (l :: ls) = extractGo st' ls := by
  rw [extractGo, hp]

lemma extractGo_cons_some (st st' : ExtState) (r : Record) (l : String) (ls : List String)
    (hp : processLine st l = some (st', some r)) :
    extractGo st (l :: ls) = (extractGo st' ls).map (fun rs => r :: rs) := by
  rw [extractGo, hp]

lemma classifyLine_header_inv (st : ExtState) (line : String) (c : Char)
    (hinv : st.header ≠ "" → headChar? st.header = some '@')
    (hc : headChar? line = some c) :
    (classifyLine st line c).header ≠ ""
      → headChar? (classifyLine st line c).header = some '@' := by
  unfold classifyLine
  by_cases h1 : c = '@'
  · rw [if_pos h1]
    intro _
    rw [hc, h1]
  · rw [if_neg h1]
    by_cases h2 : st.header ≠ "" ∧ st.sequence = ""
    · rw [if_pos h2]
      exact hinv
    · rw [if_neg h2]
      by_cases h3 : st.header ≠ "" ∧ st.sequence ≠ "" ∧ st.quality = ""
      · rw [if_pos h3]
        by_cases h4 : c ≠ '+'
        · rw [if_pos h4]
          exact hinv
        · rw [if_neg h4]
          exact hinv
      · rw [if_neg h3]
        exact hinv

lemma processLine_inv (st st' : ExtState) (out : Option Record) (raw : String)
    (hinv : st.header ≠ "" → headChar? st.header = some '@')
    (hp : processLine st raw = some (st', out)) :
    (st'.header ≠ "" → headChar? st'.header = some '@') ∧
    (∀ r, out = some r →
      st' = initState ∧ r.header ≠ "" ∧ r.sequence ≠ "" ∧ r.quality ≠ "" ∧
        headChar? r.header = some '@') := by
  cases hc : headChar? (pyStrip raw) with
  | none =>
    unfold processLine at hp
    simp only [hc] at hp
    exact Option.noConfusion hp
  | some c =>
    rw [processLine_some st raw c hc] at hp
    injection hp with hp
    have hstc_inv := classifyLine_header_inv st (pyStrip raw) c hinv hc
    unfold yieldCheck at hp
    by_cases hcomp : (classifyLine st (pyStrip raw) c).header ≠ ""
        ∧ (classifyLine st (pyStrip raw) c).sequence ≠ ""
        ∧ (classifyLine st (pyStrip raw) c).quality ≠ ""
    · rw [if_pos hcomp] at hp
      cases hp
      refine ⟨?_, ?_⟩
      · intro habs
        exact absurd rfl habs
      · intro r hr
        injection hr with hr
        subst hr
        exact ⟨rfl, hcomp.1, hcomp.2.1, hcomp.2.2, hstc_inv hcomp.1⟩
    · rw [if_neg hcomp] at hp
      cases hp
      refine ⟨hstc_inv, ?_⟩
      intro r hr
      exact Option.noConfusion hr

lemma extractGo_sound (lines : List String) :
    ∀ st recs, (st.header ≠ "" → headChar? st.header = some '@') →
    extractGo st lines = some recs →
    ∀ r ∈ recs, r.header ≠ "" ∧ r.sequence ≠ "" ∧ r.quality ≠ "" ∧
      headChar? r.header = some '@' := by
  induction lines with
  | nil =>
    intro st recs _ h r hr
    rw [extractGo] at h
    injection h with h
    subst h
    exact absurd hr (List.not_mem_nil r)
  | cons l ls ih =>
    intro st recs hinv h r hr
    cases hp : processLine st l with
    | none =>
      rw [extractGo_cons_err st l ls hp] at h
      exact Option.noConfusion h
    | some p =>
      obtain ⟨st', out⟩ := p
      have hfacts := processLine_inv st st' out l hinv hp
      cases out with
      | none =>
        rw [extractGo_cons_none st st' l ls hp] at h
        exact ih st' recs hfacts.1 h r hr
      | some r0 =>
        rw [extractGo_cons_some st st' r0 l ls hp] at h
        cases hgo : extractGo st' ls with
        | none =>
          rw [hgo] at h
          exact Option.noConfusion h
        | some rest =>
          rw [hgo] at h
          injection h with h
          subst h
          rcases List.mem_cons.mp hr with hr0 | hmem
          · subst hr0
            exact (hfacts.2 r rfl).2
          · exact ih st' rest hfacts.1 hgo r hmem

lemma processLine_yield_reset (st st' : ExtState) (r : Record) (raw : String)
    (hp : processLine st raw = some (st', some r)) : st' = initState := by
  cases hc : headChar? (pyStrip raw) with
  | none =>
    unfold processLine at hp
    simp only [hc] at hp
    exact Option.noConfusion hp
  | some c =>
    rw [processLine_some st raw c hc] at hp
    injection hp with hp
    unfold yieldCheck at hp
    by_cases hcomp : (classifyLine st (pyStrip raw) c).header ≠ ""
        ∧ (classifyLine st (pyStrip raw) c).sequence ≠ ""
        ∧ (classifyLine st (pyStrip raw) c).quality ≠ ""
    · rw [if_pos hcomp] at hp
      cases hp
      rfl
    · rw [if_neg hcomp] at hp
      have hsnd := congrArg Prod.snd hp
      exact Option.noConfusion hsnd

/-- C9: every triple yielded by `extract_record` has all three components
non-empty and a header whose first character is `@`, and immediately after
each yield `processLine` resets all three accumulator slots to the empty
initial state. -/
theorem extract_record_yield_invariant :
    (∀ lines recs, extract_record lines = some recs →
      ∀ r ∈ recs, r.header ≠ "" ∧ r.sequence ≠ "" ∧ r.quality ≠ "" ∧
        headChar? r.header = some '@') ∧
    (∀ st raw st' r, processLine st raw = some (st', some r) → st' = initState) := by
  constructor
  · intro lines recs h
    exact extractGo_sound lines initState recs (fun habs => absurd rfl habs) h
  · intro st raw st' r hp
    exact processLine_yield_reset st st' r raw hp

/-- Witness for C9 at a concrete extraction. -/
theorem extract_record_yield_invariant_witness :
    ("@h" : String) ≠ "" ∧ ("S" : String) ≠ "" ∧ ("Q" : String) ≠ "" ∧
      headChar? "@h" = some '@' :=
  extract_record_yield_invariant.1 ["@h", "S", "+", "Q"] [Record.mk "@h" "S" "Q"]
    (by decide) (Record.mk "@h" "S" "Q") (by simp)

/-- C10: a line starting with `@` assigns only the header accumulator and
leaves the sequence and quality accumulators unchanged, so a previously
accumulated sequence is retained and is paired with the new header in the
next yielded record. -/
theorem at_line_keeps_sequence :
    (∀ st raw, headChar? (pyStrip raw) = some '@' →
      processLine st raw =
        if st.sequence ≠ "" ∧ st.quality ≠ "" then
          some (initState, some ⟨pyStrip raw, st.sequence, st.quality⟩)
        else
          some (⟨pyStrip raw, st.sequence, st.quality⟩, none)) ∧
    (∀ hd sq raw q cq, sq ≠ "" →
      headChar? (pyStrip raw) = some '@' →
      headChar? (pyStrip q) = some cq → cq ≠ '@' → cq ≠ '+' →
      extractGo ⟨hd, sq, ""⟩ [raw, q] = some [⟨pyStrip raw, sq, pyStrip q⟩]) := by
  have part1 : ∀ st raw, headChar? (pyStrip raw) = some '@' →
      processLine st raw =
        if st.sequence ≠ "" ∧ st.quality ≠ "" then
          some (initState, some ⟨pyStrip raw, st.sequence, st.quality⟩)
        else
          some (⟨pyStrip raw, st.sequence, st.quality⟩, none) := by
    intro st raw hc
    have hne : pyStrip raw ≠ "" := headChar?_ne_empty hc
    rw [processLine_some st raw '@' hc, classifyLine_at]
    by_cases hcond : st.sequence ≠ "" ∧ st.quality ≠ ""
    · rw [if_pos hcond,
        yieldCheck_yes ⟨pyStrip raw, st.sequence, st.quality⟩ hne hcond.1 hcond.2]
    · rw [if_neg hcond,
        yieldCheck_no ⟨pyStrip raw, st.sequence, st.quality⟩
          (fun hcontra => hcond ⟨hcontra.2.1, hcontra.2.2⟩)]
  refine ⟨part1, ?_⟩
  intro hd sq raw q cq hsq hat hq hqa hqp
  have hne : pyStrip raw ≠ "" := headChar?_ne_empty hat
  have p1 : processLine ⟨hd, sq, ""⟩ raw = some (⟨pyStrip raw, sq, ""⟩, none) := by
    rw [part1 ⟨hd, sq, ""⟩ raw hat, if_neg]
    intro hcontra
    exact hcontra.2 rfl
  have p2 : processLine ⟨pyStrip raw, sq, ""⟩ q
      = some (initState, some ⟨pyStrip raw, sq, pyStrip q⟩) := by
    rw [processLine_some ⟨pyStrip raw, sq, ""⟩ q cq hq,
      classifyLine_qual _ _ _ hqa hqp hne hsq rfl,
      yieldCheck_yes ⟨pyStrip raw, sq, pyStrip q⟩ hne hsq (headChar?_ne_empty hq)]
  rw [extractGo_cons_none _ _ _ _ p1, extractGo_cons_some _ _ _ _ _ p2]
  rfl

/-- Witness for C10: an in-progress sequence survives a new `@`-header line
and is paired with that new header. -/
theorem at_line_keeps_sequence_witness :
    processLine ⟨"@old", "SEQ", ""⟩ "@new" = some (⟨"@new", "SEQ", ""⟩, none) ∧
    extractGo ⟨"@old", "SEQ", ""⟩ ["@new", "JJJ"] = some [⟨"@new", "SEQ", "JJJ"⟩] := by
  constructor
  · have h := at_line_keeps_sequence.1 ⟨"@old", "SEQ", ""⟩ "@new" (by decide)
    rw [h, if_neg]
    · have hps : pyStrip "@new" = "@new" := by decide
      rw [hps]
    · intro hcontra
      exact hcontra.2 rfl
  · have h := at_line_keeps_sequence.2 "@old" "SEQ" "@new" "JJJ" 'J'
      (by decide) (by decide) (by decide) (by decide) (by decide)
    have hps : pyStrip "@new" = "@new" := by decide
    have hpq : pyStrip "JJJ" = "JJJ" := by decide
    rw [hps, hpq] at h
    exact h

/-- C4 counterexample: with two consecutive `+`-prefixed lines between the
sequence and the quality, both are skipped, so more than one `+`-prefixed
line is skipped for a single record; under the claim's "at most one skipped"
reading, the second `+` line would have become the quality. -/
theorem plus_skip_counterexample :
    extract_record ["@h", "S", "+", "+", "J"] = some [Record.mk "@h" "S" "J"] ∧
    extract_record ["@h", "S", "+", "+", "J"] ≠ some [Record.mk "@h" "S" "+"] := by
  constructor
  · decide
  · decide

/-- C4 (amended): while the header and sequence slots are set and the quality
slot is empty, EVERY line starting with `+` is silently skipped, leaving the
state unchanged (so arbitrarily many consecutive `+`-prefixed lines are all
skipped, not at most one); when a line starting with neither `+` nor `@`
arrives in that state, it becomes the quality and the record is yielded. -/
theorem plus_lines_all_skipped :
    (∀ st raw, st.header ≠ "" → st.sequence ≠ "" → st.quality = "" →
      headChar? (pyStrip raw) = some '+' →
      processLine st raw = some (st, none)) ∧
    (∀ st raw c, st.header ≠ "" → st.sequence ≠ "" → st.quality = "" →
      headChar? (pyStrip raw) = some c → c ≠ '@' → c ≠ '+' →
      processLine st raw = some (initState, some ⟨st.header, st.sequence, pyStrip raw⟩)) := by
  constructor
  · intro st raw hh hs hq hc
    rw [processLine_some st raw '+' hc, classifyLine_skip _ _ hh hs hq,
      yieldCheck_no st (fun hcontra => hcontra.2.2 (hq ▸ rfl))]
  · intro st raw c hh hs hq hc hca hcp
    rw [processLine_some st raw c hc, classifyLine_qual _ _ _ hca hcp hh hs hq,
      yieldCheck_yes { st with quality := pyStrip raw } hh hs (headChar?_ne_empty hc)]

/-- Witness for C4's amended theorem: a second consecutive `+` line is
skipped from the awaiting-quality state, and a non-`+` line then becomes the
quality. -/
theorem plus_lines_all_skipped_witness :
    processLine ⟨"@h", "S", ""⟩ "+" = some (⟨"@h", "S", ""⟩, none) ∧
    processLine ⟨"@h", "S", ""⟩ "J"
      = some (initState, some ⟨"@h", "S", "J"⟩) := by
  constructor
  · exact plus_lines_all_skipped.1 ⟨"@h", "S", ""⟩ "+"
      (by decide) (by decide) rfl (by decide)
  · have h := plus_lines_all_skipped.2 ⟨"@h", "S", ""⟩ "J" 'J'
      (by decide) (by decide) rfl (by decide) (by decide) (by decide)
    have hps : pyStrip "J" = "J" := by decide
    rw [hps] at h
    exact h

/-- C5: the out-of-range branch of the `line[0]` marker check IS reachable:
on an input stream containing an empty line, `extract_record` evaluates
`line[0]` on the empty stripped line and aborts with an `IndexError`
(embedded as `none`) instead of treating the line as carrying no marker. -/
theorem empty_line_index_error :
    processLine initState "" = none ∧
    extract_record [""] = none ∧
    extract_record ["", "@h", "S", "+", "Q"] = none ∧
    extract_record ["@h", "S", "+", "Q", "  "] = none := by
  refine ⟨by decide, by decide, by decide, by decide⟩

/-- C6 counterexample: a line of spaces followed by `@h` IS taken as a header
(with the leading spaces removed), and a record is yielded from it; under the
claim's right-trim-only reading no header would ever be set on this input,
so no record could be yielded and no component could equal `"@h"`. -/
theorem leading_whitespace_counterexample :
    extract_record ["  @h", "S", "+", "Q"] = some [Record.mk "@h" "S" "Q"] ∧
    extract_record ["  @h", "S", "+", "Q"] ≠ some [] ∧
    extract_record ["  @h", "S", "+", "Q"] ≠ some [Record.mk "  @h" "S" "Q"] := by
  refine ⟨by decide, by decide, by decide⟩

lemma dropWhile_replicate_space (n : Nat) (l : List Char) :
    (List.replicate n ' ' ++ l).dropWhile isPySpace = l.dropWhile isPySpace := by
  induction n with
  | zero => rfl
  | succ n ih =>
    rw [List.replicate_succ, List.cons_append, List.dropWhile_cons_of_pos (by decide)]
    exact ih

lemma pyStrip_replicate_space (n : Nat) (s : String) :
    pyStrip ((List.replicate n ' ').asString ++ s) = pyStrip s := by
  unfold pyStrip stripList
  have htl : ((List.replicate n ' ').asString ++ s).toList
      = List.replicate n ' ' ++ s.toList := rfl
  rw [htl, dropWhile_replicate_space]

/-- C6 (amended): each incoming line is trimmed of BOTH trailing and leading
whitespace before the extractor classifies it (Python `str.strip()`), so
leading whitespace never affects classification: prefixing any number of
spaces to a line leaves the behaviour of the extraction step unchanged, and
in particular a line of spaces followed by `@...` IS taken as a header. -/
theorem strip_removes_leading_whitespace (st : ExtState) (raw : String) (n : Nat) :
    processLine st ((List.replicate n ' ').asString ++ raw) = processLine st raw := by
  unfold processLine
  rw [pyStrip_replicate_space]

lemma writeFiles_paths_exist (fs : String → Option String) (paths : List String)
    (out : List String × List String) :
    (writeFiles fs paths out (paths.getD 0 "")).isSome = true ∧
    (writeFiles fs paths out (paths.getD 1 "")).isSome = true := by
  constructor
  · unfold writeFiles
    by_cases h : paths.getD 0 "" = paths.getD 1 ""
    · rw [if_pos h]
      rfl
    · rw [if_neg h, if_pos rfl]
      rfl
  · unfold writeFiles
    rw [if_pos rfl]
    rfl

lemma split_noop_of_exists (fs : String → Option String) (lines : List String)
    (ip od : String)
    (hall : (generate_output_paths ip od).all (fun p => (fs p).isSome) = true) :
    split_merged_data_set fs lines ip od false
      = some (fs, "Splitting Aborted. Files already present and not overwritten.") := by
  unfold split_merged_data_set
  simp [hall]

/-- C7: with `overwrite = false` and both derived output paths already
present, `split_merged_data_set` is a no-op that returns the informational
status message and the unchanged file map; consequently, any completed run
(which writes both output files) followed by a second run with
`overwrite = false` performs no second write and leaves the outputs
byte-identical. -/
theorem overwrite_false_noop (fs : String → Option String) (lines : List String)
    (ip od : String) :
    ((generate_output_paths ip od).all (fun p => (fs p).isSome) = true →
      split_merged_data_set fs lines ip od false
        = some (fs, "Splitting Aborted. Files already present and not overwritten.")) ∧
    (∀ fs' msg, split_merged_data_set fs lines ip od true = some (fs', msg) →
      split_merged_data_set fs' lines ip od false
        = some (fs', "Splitting Aborted. Files already present and not overwritten.")) := by
  constructor
  · exact split_noop_of_exists fs lines ip od
  · intro fs' msg h1
    unfold split_merged_data_set at h1
    simp only [Bool.or_true, eq_self_iff_true, if_true] at h1
    cases hrp : runPipeline lines with
    | none =>
      rw [hrp] at h1
      exact Option.noConfusion h1
    | some out =>
      rw [hrp] at h1
      injection h1 with h1
      have hfs' : fs' = writeFiles fs (generate_output_paths ip od) out :=
        (congrArg Prod.fst h1).symm
      apply split_noop_of_exists
      have hpaths : generate_output_paths ip od
          = [(generate_output_paths ip od).getD 0 "",
             (generate_output_paths ip od).getD 1 ""] := rfl
      have hex := writeFiles_paths_exist fs (generate_output_paths ip od) out
      rw [hfs']
      rw [hpaths]
      simp only [List.all_cons, List.all_nil, Bool.and_true]
      rw [← hpaths]
      rw [hex.1, hex.2]
      rfl

/-- Witness for C7 with both output files already present. -/
theorem overwrite_false_noop_witness :
    split_merged_data_set (fun _ => some "x") ["@r", "ACGT", "+", "IIII"]
        "data/sample.fastq" "out" false
      = some ((fun _ => some "x"),
          "Splitting Aborted. Files already present and not overwritten.") :=
  (overwrite_false_noop (fun _ => some "x") ["@r", "ACGT", "+", "IIII"]
    "data/sample.fastq" "out").1 (by decide)

lemma gclaGo_some (argv : List String) (cond : PyVal → Bool) (off : Nat) :
    ∀ (ds : List PyVal) (i : Nat) (res : List PyVal),
      gclaGo argv cond off i ds = some res →
      res.length = ds.length ∧
      ∀ j d, ds[j]? = some d →
        res[j]? = some (match argv[i + j + off]? with
                        | some a => PyVal.str a
                        | none => d) := by
  intro ds
  induction ds with
  | nil =>
    intro i res h
    simp only [gclaGo] at h
    injection h with h
    subst h
    refine ⟨rfl, ?_⟩
    intro j d hd
    simp at hd
  | cons d0 rest ih =>
    intro i res h
    simp only [gclaGo] at h
    cases ha : argv[i + off]? with
    | some a =>
      simp only [ha] at h
      cases hg : gclaGo argv cond off (i + 1) rest with
      | none =>
        rw [hg] at h
        exact Option.noConfusion h
      | some res' =>
        rw [hg] at h
        injection h with h
        subst h
        have hih := ih (i + 1) res' hg
        refine ⟨by simp [hih.1], ?_⟩
        intro j d hd
        cases j with
        | zero =>
          simp only [List.getElem?_cons_zero] at hd ⊢
          have hidx : i + 0 + off = i + off := by omega
          rw [hidx, ha]
        | succ j' =>
          simp only [List.getElem?_cons_succ] at hd ⊢
          have h2 := hih.2 j' d hd
          have hidx : i + (j' + 1) + off = i + 1 + j' + off := by omega
          rw [hidx]
          exact h2
    | none =>
      simp only [ha] at h
      by_cases hc : cond d0 = true
      · rw [if_pos hc] at h
        cases hg : gclaGo argv cond off (i + 1) rest with
        | none =>
          rw [hg] at h
          exact Option.noConfusion h
        | some res' =>
          rw [hg] at h
          injection h with h
          subst h
          have hih := ih (i + 1) res' hg
          refine ⟨by simp [hih.1], ?_⟩
          intro j d hd
          cases j with
          | zero =>
            simp only [List.getElem?_cons_zero] at hd ⊢
            injection hd with hd
            subst hd
            have hidx : i + 0 + off = i + off := by omega
            rw [hidx, ha]
          | succ j' =>
            simp only [List.getElem?_cons_succ] at hd ⊢
            have h2 := hih.2 j' d hd
            have hidx : i + (j' + 1) + off = i + 1 + j' + off := by omega
            rw [hidx]
            exact h2
      · rw [if_neg hc] at h
        exact Option.noConfusion h

lemma gclaGo_none (argv : List String) (cond : PyVal → Bool) (off : Nat) :
    ∀ (ds : List PyVal) (i : Nat),
      (∃ j d, ds[j]? = some d ∧ argv[i + j + off]? = none ∧ cond d = false) →
      gclaGo argv cond off i ds = none := by
  intro ds
  induction ds with
  | nil =>
    rintro i ⟨j, d, hd, -, -⟩
    simp at hd
  | cons d0 rest ih =>
    rintro i ⟨j, d, hd, ha, hc⟩
    cases j with
    | zero =>
      simp only [List.getElem?_cons_zero] at hd
      injection hd with hd
      subst hd
      have ha' : argv[i + off]? = none := by
        have hidx : i + 0 + off = i + off := by omega
        rwa [hidx] at ha
      simp only [gclaGo, ha', hc]
      rfl
    | succ j' =>
      simp only [List.getElem?_cons_succ] at hd
      have hrec : gclaGo argv cond off (i + 1) rest = none := by
        apply ih (i + 1)
        refine ⟨j', d, hd, ?_, hc⟩
        have hidx : i + 1 + j' + off = i + (j' + 1) + off := by omega
        rw [hidx]
        exact ha
      simp only [gclaGo]
      cases ha0 : argv[i + off]? with
      | some a =>
        simp only [ha0, hrec]
        rfl
      | none =>
        simp only [ha0]
        by_cases hc0 : cond d0 = true
        · rw [if_pos hc0, hrec]
          rfl
        · rw [if_neg hc0]

/-- C8 counterexample: with one positional argument supplied (`argv =
[program, "arg1"]`), the `Splitter.py` copy returns that argument at position
0, but the `CommandLineParser.py` copy returns the PROGRAM NAME at position 0
(it reads `sys.argv[index]` instead of `sys.argv[index + 1]`), so the claimed
contract does not hold for both copies. -/
theorem argv_offset_counterexample :
    Splitter.get_command_line_arguments ["prog", "arg1"] [PyVal.str "d0"]
      = some [PyVal.str "arg1"] ∧
    CommandLineParser.get_command_line_arguments ["prog", "arg1"] [PyVal.str "d0"]
      = some [PyVal.str "prog"] ∧
    CommandLineParser.get_command_line_arguments ["prog", "arg1"] [PyVal.str "d0"]
      ≠ some [PyVal.str "arg1"] := by
  refine ⟨by decide, by decide, by decide⟩

/-- C8 (amended): the claimed contract — as many values as defaults, position
`i` preferring the `i`-th process-supplied positional argument
(`sys.argv[i + 1]`) and otherwise `defaults[i]`, with process termination
when neither a supplied argument nor a default accepted by the `!= ''` test
is available — holds for the `Splitter.py` copy only; the
`CommandLineParser.py` copy instead fills position `i` from `sys.argv[i]`
(so position 0 receives the program name) and accepts a default exactly when
it is Python-truthy. -/
theorem get_command_line_arguments_contract (argv : List String) (ds : List PyVal) :
    (∀ res, Splitter.get_command_line_arguments argv ds = some res →
      res.length = ds.length ∧
      ∀ (j : Nat) (d : PyVal), ds[j]? = some d →
        res[j]? = some (match argv[j + 1]? with
                        | some a => PyVal.str a
                        | none => d)) ∧
    ((∃ (j : Nat) (d : PyVal), ds[j]? = some d ∧ argv[j + 1]? = none ∧
        pyNeEmptyStr d = false) →
      Splitter.get_command_line_arguments argv ds = none) ∧
    (∀ res, CommandLineParser.get_command_line_arguments argv ds = some res →
      res.length = ds.length ∧
      ∀ (j : Nat) (d : PyVal), ds[j]? = some d →
        res[j]? = some (match argv[j]? with
                        | some a => PyVal.str a
                        | none => d)) := by
  refine ⟨?_, ?_, ?_⟩
  · intro res h
    have hs := gclaGo_some argv pyNeEmptyStr 1 ds 0 res h
    refine ⟨hs.1, ?_⟩
    intro j d hd
    have h2 := hs.2 j d hd
    rwa [show 0 + j + 1 = j + 1 from by omega] at h2
  · rintro ⟨j, d, hd, ha, hc⟩
    apply gclaGo_none argv pyNeEmptyStr 1 ds 0
    refine ⟨j, d, hd, ?_, hc⟩
    rwa [show 0 + j + 1 = j + 1 from by omega]
  · intro res h
    have hs := gclaGo_some argv pyTruthy 0 ds 0 res h
    refine ⟨hs.1, ?_⟩
    intro j d hd
    have h2 := hs.2 j d hd
    rwa [show 0 + j + 0 = j from by omega] at h2

/-- Witness for C8's amended theorem: two defaults, one supplied positional
argument; position 0 takes the argument, position 1 falls back to its
default. -/
theorem get_command_line_arguments_contract_witness :
    ([PyVal.str "a", PyVal.str "d1"] : List PyVal).length
        = ([PyVal.str "d0", PyVal.str "d1"] : List PyVal).length ∧
    ([PyVal.str "a", PyVal.str "d1"] : List PyVal)[0]? = some (PyVal.str "a") ∧
    ([PyVal.str "a", PyVal.str "d1"] : List PyVal)[1]? = some (PyVal.str "d1") := by
  have h := (get_command_line_arguments_contract ["prog", "a"]
    [PyVal.str "d0", PyVal.str "d1"]).1 [PyVal.str "a", PyVal.str "d1"] (by decide)
  exact ⟨h.1, h.2 0 (PyVal.str "d0") (by decide), h.2 1 (PyVal.str "d1") (by decide)⟩
